import Mathlib

/-!
Verification of the non-linear timeline scale builder of the motionbridge
repository (`createVisualTimeScale` in the handoff-spec component, mirrored
inline in the HTML export of `App.tsx`).

Times and visual positions are embedded as rationals (`ℚ`); the JavaScript
`Set` + numeric sort that collects the boundary time points is embedded as an
ordered duplicate-free insertion (`insertPoint`), and the `findIndex`-based
lookup of `getPercent` is embedded as a structural scan that carries the
previous mapping entry, exactly as the linear `findIndex` scan does.
-/

/-- An animated property: `delay` is the start time of its interval and
`delay + duration` its end time (`src/types.ts`, `AnimatedProperty`). -/
structure AnimatedProperty where
  delay : ℚ
  duration : ℚ
deriving DecidableEq

/-- A track holds a list of animated properties (`src/types.ts`,
`AnimationTrack`; the `id`/`name` strings play no role in the scale). -/
structure AnimationTrack where
  properties : List AnimatedProperty
deriving DecidableEq

/-- A group holds a list of tracks (`src/types.ts`, `AnimationGroup`). -/
structure AnimationGroup where
  tracks : List AnimationTrack
deriving DecidableEq

/-- The start of a property's interval (its `delay`). -/
def intervalStart (p : AnimatedProperty) : ℚ := p.delay

/-- The end of a property's interval (`delay + duration`). -/
def intervalEnd (p : AnimatedProperty) : ℚ := p.delay + p.duration

/-- Flattening of all properties: `tracks.flatMap(t => t.properties)`. -/
def allProps (tracks : List AnimationTrack) : List AnimatedProperty :=
  tracks.flatMap (fun t => t.properties)

/-- The multiset of boundary time points fed to the `Set`: the seed `0`
together with `p.delay` and `p.delay + p.duration` for every property. -/
def rawPoints (props : List AnimatedProperty) : List ℚ :=
  0 :: props.flatMap (fun p => [p.delay, p.delay + p.duration])

/-- Ordered duplicate-free insertion: embeds one step of building the
deduplicated (`Set`) ascending-sorted (`sort((a,b) => a-b)`) point list. -/
def insertPoint (x : ℚ) : List ℚ → List ℚ
  | [] => [x]
  | y :: ys => if x < y then x :: y :: ys else if x = y then y :: ys else y :: insertPoint x ys

/-- The deduplicated boundary points in ascending order (`sortedPoints`). -/
def sortedPoints (props : List AnimatedProperty) : List ℚ :=
  (rawPoints props).foldr insertPoint []

/-- Visually, an empty gap is never wider than 60ms equivalent
(`MAX_EMPTY_GAP_VISUAL = 60`). -/
def MAX_EMPTY_GAP_VISUAL : ℚ := 60

/-- Midpoint coverage: `allProps.some(p => mid >= p.delay && mid <= (p.delay + p.duration))`. -/
def isActive (props : List AnimatedProperty) (mid : ℚ) : Bool :=
  props.any fun p => decide (p.delay ≤ mid ∧ mid ≤ p.delay + p.duration)

/-- One entry `{ real, visual }` of the visual mapping table. -/
structure MapEntry where
  real : ℚ
  visual : ℚ
deriving DecidableEq

/-- The body of the builder's `for` loop: walking consecutive sorted points
`tStart :: rest`, with accumulator `cur` (`currentVisual`), it pushes one
entry `{ real: tEnd, visual: currentVisual }` per consecutive pair, where an
active segment contributes its real duration and an idle one
`min(realDuration, MAX_EMPTY_GAP_VISUAL)`. -/
def buildSegments (props : List AnimatedProperty) : ℚ → ℚ → List ℚ → List MapEntry
  | _, _, [] => []
  | cur, tStart, tEnd :: rest =>
      let mid := (tStart + tEnd) / 2
      let realDuration := tEnd - tStart
      let visualDuration :=
        if isActive props mid then realDuration else min realDuration MAX_EMPTY_GAP_VISUAL
      ⟨tEnd, cur + visualDuration⟩ :: buildSegments props (cur + visualDuration) tEnd rest

/-- The visual mapping table: starts at `{ real: 0, visual: 0 }` and then
holds one entry per sorted point after the first. -/
def visualMap (props : List AnimatedProperty) : List MapEntry :=
  match sortedPoints props with
  | [] => [⟨0, 0⟩]
  | t :: rest => ⟨0, 0⟩ :: buildSegments props 0 t rest

/-- The entries of `visualMap` after the initial `{0,0}` entry. -/
def visualTail (props : List AnimatedProperty) : List MapEntry :=
  match sortedPoints props with
  | [] => []
  | t :: rest => buildSegments props 0 t rest

/-- The final value of `currentVisual` after the loop: the `visual` of the
last entry of `visualMap` (the initial entry contributes `0`). -/
def totalVisualRaw (props : List AnimatedProperty) : ℚ :=
  ((visualMap props).getLastD ⟨0, 0⟩).visual

/-- Total visual length: `currentVisual || 100` (avoid divide by zero). -/
def totalVisualDuration (props : List AnimatedProperty) : ℚ :=
  if totalVisualRaw props = 0 then 100 else totalVisualRaw props

/-- Maximum real duration: `sortedPoints[sortedPoints.length - 1] || 0`. -/
def maxRealDuration (props : List AnimatedProperty) : ℚ :=
  (sortedPoints props).getLastD 0

/-- The linear interpolation performed by `getPercent` once `findIndex` has
stopped at entry `e` with previous entry `prev`. -/
def interpVal (T : ℚ) (prev e : MapEntry) (t : ℚ) : ℚ :=
  let segmentRealDuration := e.real - prev.real
  let segmentVisualDuration := e.visual - prev.visual
  let progressInSegment := (t - prev.real) / segmentRealDuration
  let visualTime := prev.visual + progressInSegment * segmentVisualDuration
  (visualTime / T) * 100

/-- The `findIndex` scan of `getPercent` past the first entry: `prev` is the
entry before the current head; if the head's `real` is `≥ t` interpolate
between `prev` and the head, otherwise keep scanning; if the scan runs out
(`findIndex` returns `-1`) the result is `100`. -/
def getPercentAux (T : ℚ) : MapEntry → List MapEntry → ℚ → ℚ
  | _, [], _ => 100
  | prev, e :: rest, t =>
      if t ≤ e.real then interpVal T prev e t else getPercentAux T e rest t

/-- Mapping function `getPercent(realTime)`: find the first mapping entry with `real ≥ t`;
if none return `100`; if it is the first entry return `0`; otherwise
interpolate between it and its predecessor. -/
def getPercent (props : List AnimatedProperty) (t : ℚ) : ℚ :=
  match visualMap props with
  | [] => 100
  | e :: rest => if t ≤ e.real then 0 else getPercentAux (totalVisualDuration props) e rest t

/-- The record returned by the builder. -/
structure VisualTimeScale where
  getPercent : ℚ → ℚ
  totalDuration : ℚ

/-- The builder `createVisualTimeScale(tracks)`: returns `{ getPercent, totalDuration }`. -/
def createVisualTimeScale (tracks : List AnimationTrack) : VisualTimeScale :=
  ⟨getPercent (allProps tracks), maxRealDuration (allProps tracks)⟩

/-- The validity condition the spec claims put on inputs: every interval has
a non-negative start and an end not before its start. -/
def ValidProps (props : List AnimatedProperty) : Prop :=
  ∀ p ∈ props, 0 ≤ intervalStart p ∧ intervalStart p ≤ intervalEnd p

/-! ### A division-checked rendering of `getPercent`

`divCheckedQ` returns `none` exactly when the denominator is zero; the
checked scan mirrors `getPercent` with every division guarded, so proving it
total shows the source never divides by zero. -/

def divCheckedQ (a b : ℚ) : Option ℚ := if b = 0 then none else some (a / b)

def interpValChecked (T : ℚ) (prev e : MapEntry) (t : ℚ) : Option ℚ :=
  match divCheckedQ (t - prev.real) (e.real - prev.real) with
  | none => none
  | some progressInSegment =>
      match divCheckedQ (prev.visual + progressInSegment * (e.visual - prev.visual)) T with
      | none => none
      | some v => some (v * 100)

def getPercentAuxChecked (T : ℚ) : MapEntry → List MapEntry → ℚ → Option ℚ
  | _, [], _ => some 100
  | prev, e :: rest, t =>
      if t ≤ e.real then interpValChecked T prev e t
      else getPercentAuxChecked T e rest t

def getPercentChecked (props : List AnimatedProperty) (t : ℚ) : Option ℚ :=
  match visualMap props with
  | [] => some 100
  | e :: rest =>
      if t ≤ e.real then some 0
      else getPercentAuxChecked (totalVisualDuration props) e rest t

/-! ### The inlined scale computation of the HTML export

`handleDownloadHTML` in `src/App.tsx` rebuilds the scale by hand for each
group ("Mirrors HandoffSpec.tsx"). The following definitions transcribe that
inlined block separately so the two can be compared. -/

def htmlAllProps (tracks : List AnimationTrack) : List AnimatedProperty :=
  tracks.flatMap (fun t => t.properties)

def htmlRawPoints (props : List AnimatedProperty) : List ℚ :=
  0 :: props.flatMap (fun p => [p.delay, p.delay + p.duration])

def htmlSortedPoints (props : List AnimatedProperty) : List ℚ :=
  (htmlRawPoints props).foldr insertPoint []

def htmlMaxEmptyGapVisual : ℚ := 60

def htmlIsActive (props : List AnimatedProperty) (mid : ℚ) : Bool :=
  props.any fun p => decide (p.delay ≤ mid ∧ mid ≤ p.delay + p.duration)

def htmlBuildSegments (props : List AnimatedProperty) : ℚ → ℚ → List ℚ → List MapEntry
  | _, _, [] => []
  | cur, tStart, tEnd :: rest =>
      let mid := (tStart + tEnd) / 2
      let realDuration := tEnd - tStart
      let visualDuration :=
        if htmlIsActive props mid then realDuration else min realDuration htmlMaxEmptyGapVisual
      ⟨tEnd, cur + visualDuration⟩ :: htmlBuildSegments props (cur + visualDuration) tEnd rest

def htmlVisualMap (props : List AnimatedProperty) : List MapEntry :=
  match htmlSortedPoints props with
  | [] => [⟨0, 0⟩]
  | t :: rest => ⟨0, 0⟩ :: htmlBuildSegments props 0 t rest

def htmlTotalVisualRaw (props : List AnimatedProperty) : ℚ :=
  ((htmlVisualMap props).getLastD ⟨0, 0⟩).visual

def htmlTotalVisualDuration (props : List AnimatedProperty) : ℚ :=
  if htmlTotalVisualRaw props = 0 then 100 else htmlTotalVisualRaw props

def htmlMaxRealDuration (props : List AnimatedProperty) : ℚ :=
  (htmlSortedPoints props).getLastD 0

def htmlGetPercentAux (T : ℚ) : MapEntry → List MapEntry → ℚ → ℚ
  | _, [], _ => 100
  | prev, e :: rest, t =>
      if t ≤ e.real then interpVal T prev e t else htmlGetPercentAux T e rest t

def htmlGetPercent (props : List AnimatedProperty) (t : ℚ) : ℚ :=
  match htmlVisualMap props with
  | [] => 100
  | e :: rest =>
      if t ≤ e.real then 0 else htmlGetPercentAux (htmlTotalVisualDuration props) e rest t

/-! ### Concrete inputs used in the spec's scenarios -/

/-- One track with two simultaneous properties `[0,400]` and `[0,600]`. -/
def exTracks : List AnimationTrack := [⟨[⟨0, 400⟩, ⟨0, 600⟩]⟩]

/-- One track with the disjoint intervals `[0,100]` and `[5000,5100]`. -/
def gapTracks : List AnimationTrack := [⟨[⟨0, 100⟩, ⟨5000, 100⟩]⟩]

/-- One track with the single degenerate interval `[0,0]`. -/
def pointTracks : List AnimationTrack := [⟨[⟨0, 0⟩]⟩]

/-- One track with the single zero-length interval `[500,500]`. -/
def zeroLenTracks : List AnimationTrack := [⟨[⟨500, 0⟩]⟩]

/-! ### Basic facts about the sorted point list -/

lemma mem_insertPoint {a x : ℚ} : ∀ {l : List ℚ}, a ∈ insertPoint x l ↔ a = x ∨ a ∈ l := by
  intro l
  induction l with
  | nil => simp [insertPoint]
  | cons y ys ih =>
      by_cases h1 : x < y
      · simp [insertPoint, h1]
      · by_cases h2 : x = y
        · subst h2
          simp only [insertPoint, h1, if_neg, if_pos rfl]
          constructor
          · intro h; exact Or.inr h
          · rintro (rfl | h)
            · exact List.mem_cons_self _ _
            · exact h
        · simp only [insertPoint, if_neg h1, if_neg h2, List.mem_cons, ih]
          tauto

lemma sorted_insertPoint {x : ℚ} :
    ∀ {l : List ℚ}, l.Sorted (· < ·) → (insertPoint x l).Sorted (· < ·) := by
  intro l
  induction l with
  | nil => intro _; simp [insertPoint]
  | cons y ys ih =>
      intro hs
      rw [List.sorted_cons] at hs
      obtain ⟨hy, hys⟩ := hs
      by_cases h1 : x < y
      · rw [insertPoint, if_pos h1, List.sorted_cons]
        refine ⟨?_, ?_⟩
        · intro b hb
          rcases List.mem_cons.mp hb with rfl | hb
          · exact h1
          · exact lt_trans h1 (hy b hb)
        · rw [List.sorted_cons]; exact ⟨hy, hys⟩
      · by_cases h2 : x = y
        · rw [insertPoint, if_neg h1, if_pos h2, List.sorted_cons]; exact ⟨hy, hys⟩
        · rw [insertPoint, if_neg h1, if_neg h2, List.sorted_cons]
          refine ⟨?_, ih hys⟩
          intro b hb
          rcases mem_insertPoint.mp hb with rfl | hb
          · exact lt_of_le_of_ne (le_of_not_lt h1) (Ne.symm h2)
          · exact hy b hb

lemma sorted_sortedPoints (props : List AnimatedProperty) :
    (sortedPoints props).Sorted (· < ·) := by
  unfold sortedPoints
  induction rawPoints props with
  | nil => simp
  | cons a l ih => exact sorted_insertPoint ih

lemma mem_sortedPoints {a : ℚ} {props : List AnimatedProperty} :
    a ∈ sortedPoints props ↔ a ∈ rawPoints props := by
  unfold sortedPoints
  induction rawPoints props with
  | nil => simp
  | cons b l ih => simp [List.foldr_cons, mem_insertPoint, ih]

lemma zero_mem_sortedPoints (props : List AnimatedProperty) : (0 : ℚ) ∈ sortedPoints props :=
  mem_sortedPoints.mpr (by simp [rawPoints])

lemma sortedPoints_ne_nil (props : List AnimatedProperty) : sortedPoints props ≠ [] := by
  intro h
  have := zero_mem_sortedPoints props
  rw [h] at this
  exact List.not_mem_nil _ this

lemma sortedPoints_nonneg {props : List AnimatedProperty} (hv : ValidProps props) :
    ∀ a ∈ sortedPoints props, (0 : ℚ) ≤ a := by
  intro a ha
  rcases mem_sortedPoints.mp ha with ha'
  unfold rawPoints at ha'
  rcases List.mem_cons.mp ha' with rfl | ha''
  · exact le_refl 0
  · rcases List.mem_flatMap.mp ha'' with ⟨p, hp, hmem⟩
    obtain ⟨h1, h2⟩ := hv p hp
    simp only [intervalStart, intervalEnd] at h1 h2
    rcases List.mem_cons.mp hmem with rfl | hmem'
    · exact h1
    · rcases List.mem_cons.mp hmem' with rfl | h
      · exact le_trans h1 h2
      · exact absurd h (List.not_mem_nil _)

/-- Under valid inputs the first sorted point is the seed `0`. -/
lemma sortedPoints_eq_zero_cons {props : List AnimatedProperty} (hv : ValidProps props) :
    ∃ rest, sortedPoints props = 0 :: rest ∧ List.Chain (· < ·) 0 rest := by
  obtain ⟨a, rest, hcons⟩ := List.exists_cons_of_ne_nil (sortedPoints_ne_nil props)
  have hsorted := sorted_sortedPoints props
  rw [hcons, List.sorted_cons] at hsorted
  have ha0 : a = 0 := by
    have hz := zero_mem_sortedPoints props
    rw [hcons] at hz
    rcases List.mem_cons.mp hz with h | h
    · exact h.symm
    · have h1 := hsorted.1 0 h
      have h2 := sortedPoints_nonneg hv a (by rw [hcons]; exact List.mem_cons_self _ _)
      exact absurd h1 (not_lt.mpr h2)
  subst ha0
  refine ⟨rest, hcons, ?_⟩
  have hpair : List.Pairwise (· < ·) ((0 : ℚ) :: rest) :=
    List.pairwise_cons.mpr ⟨fun b hb => hsorted.1 b hb, hsorted.2⟩
  exact hpair.chain'

/-! ### Facts about the visual mapping table -/

/-- Each loop step strictly increases both `real` and `visual` whenever the
points walked are strictly ascending. -/
lemma buildSegments_chain (props : List AnimatedProperty) :
    ∀ (rest : List ℚ) (t cur : ℚ), List.Chain (· < ·) t rest →
      List.Chain (fun a b => a.real < b.real ∧ a.visual < b.visual) ⟨t, cur⟩
        (buildSegments props cur t rest) := by
  intro rest
  induction rest with
  | nil => intro t cur _; exact List.Chain.nil
  | cons tEnd rest' ih =>
      intro t cur hchain
      rw [List.chain_cons] at hchain
      obtain ⟨hlt, hchain'⟩ := hchain
      rw [buildSegments]
      refine List.Chain.cons ⟨hlt, ?_⟩ (ih tEnd _ hchain')
      have hpos : (0 : ℚ) <
          (if isActive props ((t + tEnd) / 2) then tEnd - t
           else min (tEnd - t) MAX_EMPTY_GAP_VISUAL) := by
        have hr : (0 : ℚ) < tEnd - t := sub_pos.mpr hlt
        split
        · exact hr
        · exact lt_min hr (by norm_num [MAX_EMPTY_GAP_VISUAL])
      simpa using hpos

/-- The `real` of the last pushed entry is the last walked point. -/
lemma buildSegments_getLastD_real (props : List AnimatedProperty) :
    ∀ (rest : List ℚ) (t cur : ℚ) (d : MapEntry),
      ((buildSegments props cur t rest).getLastD d).real = rest.getLastD d.real := by
  intro rest
  induction rest with
  | nil => intro t cur d; rfl
  | cons tEnd rest' ih =>
      intro t cur d
      rw [buildSegments, List.getLastD_cons, List.getLastD_cons, ih]

/-- A `≤`-chain gives an upper bound by the last element. -/
lemma chain_le_getLastD (f : MapEntry → ℚ) :
    ∀ (l : List MapEntry) (prev : MapEntry),
      List.Chain (fun a b => f a ≤ f b) prev l →
        ∀ x ∈ l, f x ≤ f (l.getLastD prev) := by
  intro l
  induction l with
  | nil => intro prev _ x hx; exact absurd hx (List.not_mem_nil _)
  | cons e rest ih =>
      intro prev hchain x hx
      rw [List.chain_cons] at hchain
      obtain ⟨_, hchain'⟩ := hchain
      rw [List.getLastD_cons]
      rcases List.mem_cons.mp hx with rfl | hx'
      · cases rest with
        | nil => exact le_refl _
        | cons e' rest' =>
            have he' : f x ≤ f e' := (List.chain_cons.mp hchain').1
            exact le_trans he' (ih x hchain' e' (List.mem_cons_self _ _))
      · exact ih e hchain' x hx'

/-- A `≤`-chain gives a lower bound by the starting element. -/
lemma chain_ge_head (f : MapEntry → ℚ) :
    ∀ (l : List MapEntry) (prev : MapEntry),
      List.Chain (fun a b => f a ≤ f b) prev l →
        ∀ x ∈ l, f prev ≤ f x := by
  intro l
  induction l with
  | nil => intro prev _ x hx; exact absurd hx (List.not_mem_nil _)
  | cons e rest ih =>
      intro prev hchain x hx
      rw [List.chain_cons] at hchain
      obtain ⟨hpe, hchain'⟩ := hchain
      rcases List.mem_cons.mp hx with rfl | hx'
      · exact hpe
      · exact le_trans hpe (ih e hchain' x hx')

/-- A strict chain pushes the start strictly below the last element of a
non-empty list. -/
lemma chain_lt_getLastD (f : MapEntry → ℚ) :
    ∀ (l : List MapEntry) (prev : MapEntry),
      List.Chain (fun a b => f a < f b) prev l → l ≠ [] →
        f prev < f (l.getLastD prev) := by
  intro l
  induction l with
  | nil => intro prev _ h; exact absurd rfl h
  | cons e rest ih =>
      intro prev hchain _
      rw [List.chain_cons] at hchain
      obtain ⟨hpe, hchain'⟩ := hchain
      rw [List.getLastD_cons]
      cases rest with
      | nil => exact hpe
      | cons e' rest' => exact lt_trans hpe (ih e hchain' (by simp))

lemma visualMap_eq (props : List AnimatedProperty) :
    visualMap props = ⟨0, 0⟩ :: visualTail props := by
  unfold visualMap visualTail
  cases h : sortedPoints props <;> rfl

/-- The combined strict chain on the mapping table, for valid inputs. -/
lemma visualTail_chain {props : List AnimatedProperty} (hv : ValidProps props) :
    List.Chain (fun a b => a.real < b.real ∧ a.visual < b.visual) ⟨0, 0⟩
      (visualTail props) := by
  obtain ⟨rest, hcons, hchain⟩ := sortedPoints_eq_zero_cons hv
  unfold visualTail
  rw [hcons]
  exact buildSegments_chain props rest 0 0 hchain

lemma totalVisualRaw_eq (props : List AnimatedProperty) :
    totalVisualRaw props = ((visualTail props).getLastD ⟨0, 0⟩).visual := by
  unfold totalVisualRaw
  rw [visualMap_eq, List.getLastD_cons]

lemma totalVisualDuration_ne_zero (props : List AnimatedProperty) :
    totalVisualDuration props ≠ 0 := by
  unfold totalVisualDuration
  split
  · norm_num
  · assumption

lemma getPercent_eq (props : List AnimatedProperty) (t : ℚ) :
    getPercent props t =
      if t ≤ 0 then 0
      else getPercentAux (totalVisualDuration props) ⟨0, 0⟩ (visualTail props) t := by
  unfold getPercent
  rw [visualMap_eq]

lemma visualTail_realChain {props : List AnimatedProperty} (hv : ValidProps props) :
    List.Chain (fun a b : MapEntry => a.real < b.real) ⟨0, 0⟩ (visualTail props) :=
  (visualTail_chain hv).imp (fun _ _ hab => hab.1)

lemma visualTail_visChainLe {props : List AnimatedProperty} (hv : ValidProps props) :
    List.Chain (fun a b : MapEntry => a.visual ≤ b.visual) ⟨0, 0⟩ (visualTail props) :=
  (visualTail_chain hv).imp (fun _ _ hab => le_of_lt hab.2)

lemma totalVisualRaw_nonneg {props : List AnimatedProperty} (hv : ValidProps props) :
    0 ≤ totalVisualRaw props := by
  rw [totalVisualRaw_eq]
  have hchain : List.Chain (fun a b : MapEntry => a.visual < b.visual) ⟨0, 0⟩
      (visualTail props) := (visualTail_chain hv).imp (fun _ _ hab => hab.2)
  cases h : visualTail props with
  | nil => simp
  | cons e rest =>
      rw [h] at hchain
      have hlt := chain_lt_getLastD (fun x => x.visual) (e :: rest) ⟨0, 0⟩ hchain (by simp)
      simpa using le_of_lt hlt

lemma totalVisualRaw_pos {props : List AnimatedProperty} (hv : ValidProps props)
    (h : visualTail props ≠ []) : 0 < totalVisualRaw props := by
  rw [totalVisualRaw_eq]
  have hchain : List.Chain (fun a b : MapEntry => a.visual < b.visual) ⟨0, 0⟩
      (visualTail props) := (visualTail_chain hv).imp (fun _ _ hab => hab.2)
  have hlt := chain_lt_getLastD (fun x => x.visual) (visualTail props) ⟨0, 0⟩ hchain h
  simpa using hlt

lemma totalVisualDuration_pos {props : List AnimatedProperty} (hv : ValidProps props) :
    0 < totalVisualDuration props := by
  unfold totalVisualDuration
  split
  · norm_num
  · exact lt_of_le_of_ne (totalVisualRaw_nonneg hv) (Ne.symm (by assumption))

lemma visualTail_visual_nonneg {props : List AnimatedProperty} (hv : ValidProps props) :
    ∀ x ∈ visualTail props, 0 ≤ x.visual := by
  intro x hx
  have := chain_ge_head (fun x => x.visual) (visualTail props) ⟨0, 0⟩
    (visualTail_visChainLe hv) x hx
  simpa using this

lemma visualTail_visual_ub {props : List AnimatedProperty} (hv : ValidProps props) :
    ∀ x ∈ visualTail props, x.visual ≤ totalVisualDuration props := by
  intro x hx
  have hle : x.visual ≤ totalVisualRaw props := by
    rw [totalVisualRaw_eq]
    exact chain_le_getLastD (fun x => x.visual) (visualTail props) ⟨0, 0⟩
      (visualTail_visChainLe hv) x hx
  unfold totalVisualDuration
  split
  · rename_i h0
    rw [h0] at hle
    linarith
  · exact hle

/-! ### Bounds and monotonicity of the interpolation -/

lemma div_mul_100_le_100 {v T : ℚ} (hT : 0 < T) (hvT : v ≤ T) : v / T * 100 ≤ 100 := by
  have h1 : v / T ≤ 1 := (div_le_one hT).mpr hvT
  calc v / T * 100 ≤ 1 * 100 := by
        exact mul_le_mul_of_nonneg_right h1 (by norm_num)
    _ = 100 := one_mul 100

lemma interpVal_ge {T : ℚ} {prev e : MapEntry} {t : ℚ} (hT : 0 < T)
    (hpr : prev.real < t) (hre : prev.real < e.real) (hve : prev.visual ≤ e.visual) :
    prev.visual / T * 100 ≤ interpVal T prev e t := by
  unfold interpVal
  have h1 : 0 ≤ (t - prev.real) / (e.real - prev.real) * (e.visual - prev.visual) :=
    mul_nonneg (div_nonneg (by linarith) (by linarith)) (by linarith)
  have h2 : prev.visual / T ≤
      (prev.visual + (t - prev.real) / (e.real - prev.real) * (e.visual - prev.visual)) / T :=
    div_le_div_of_nonneg_right (by linarith) (le_of_lt hT)
  exact mul_le_mul_of_nonneg_right h2 (by norm_num)

lemma interpVal_le {T : ℚ} {prev e : MapEntry} {t : ℚ} (hT : 0 < T)
    (hpr : prev.real < t) (hte : t ≤ e.real) (hve : prev.visual ≤ e.visual) :
    interpVal T prev e t ≤ e.visual / T * 100 := by
  unfold interpVal
  have hre : prev.real < e.real := lt_of_lt_of_le hpr hte
  have hprog : (t - prev.real) / (e.real - prev.real) ≤ 1 :=
    (div_le_one (by linarith)).mpr (by linarith)
  have hnum : prev.visual + (t - prev.real) / (e.real - prev.real) * (e.visual - prev.visual)
      ≤ e.visual := by
    have := mul_le_mul_of_nonneg_right hprog (by linarith : 0 ≤ e.visual - prev.visual)
    rw [one_mul] at this
    linarith
  have h2 : (prev.visual + (t - prev.real) / (e.real - prev.real) *
      (e.visual - prev.visual)) / T ≤ e.visual / T :=
    div_le_div_of_nonneg_right hnum (le_of_lt hT)
  exact mul_le_mul_of_nonneg_right h2 (by norm_num)

lemma interpVal_mono {T : ℚ} {prev e : MapEntry} (hT : 0 < T)
    (hre : prev.real < e.real) (hve : prev.visual ≤ e.visual) {t1 t2 : ℚ} (h12 : t1 ≤ t2) :
    interpVal T prev e t1 ≤ interpVal T prev e t2 := by
  unfold interpVal
  have hprog : (t1 - prev.real) / (e.real - prev.real) ≤
      (t2 - prev.real) / (e.real - prev.real) :=
    div_le_div_of_nonneg_right (by linarith) (by linarith)
  have hmul := mul_le_mul_of_nonneg_right hprog (by linarith : 0 ≤ e.visual - prev.visual)
  have h2 : (prev.visual + (t1 - prev.real) / (e.real - prev.real) *
      (e.visual - prev.visual)) / T ≤
      (prev.visual + (t2 - prev.real) / (e.real - prev.real) *
      (e.visual - prev.visual)) / T :=
    div_le_div_of_nonneg_right (by linarith) (le_of_lt hT)
  exact mul_le_mul_of_nonneg_right h2 (by norm_num)

/-! ### Bounds and monotonicity of the `findIndex` scan -/

lemma getPercentAux_lb {T : ℚ} (hT : 0 < T) :
    ∀ (l : List MapEntry) (prev : MapEntry) (t : ℚ),
      prev.visual ≤ T →
      (∀ x ∈ l, x.visual ≤ T) →
      List.Chain (fun a b : MapEntry => a.real < b.real) prev l →
      List.Chain (fun a b : MapEntry => a.visual ≤ b.visual) prev l →
      prev.real < t →
      prev.visual / T * 100 ≤ getPercentAux T prev l t := by
  intro l
  induction l with
  | nil =>
      intro prev t hpT _ _ _ _
      rw [getPercentAux]
      exact div_mul_100_le_100 hT hpT
  | cons e rest ih =>
      intro prev t hpT hub hcR hcV hpr
      rw [List.chain_cons] at hcR hcV
      rw [getPercentAux]
      split
      · exact interpVal_ge hT hpr hcR.1 hcV.1
      · rename_i hnot
        have het : e.real < t := lt_of_not_le hnot
        have heT : e.visual ≤ T := hub e (List.mem_cons_self _ _)
        have hrec := ih e t heT (fun x hx => hub x (List.mem_cons_of_mem _ hx))
          hcR.2 hcV.2 het
        calc prev.visual / T * 100 ≤ e.visual / T * 100 := by
              exact mul_le_mul_of_nonneg_right
                (div_le_div_of_nonneg_right hcV.1 (le_of_lt hT)) (by norm_num)
          _ ≤ getPercentAux T e rest t := hrec

lemma getPercentAux_ub {T : ℚ} (hT : 0 < T) :
    ∀ (l : List MapEntry) (prev : MapEntry) (t : ℚ),
      (∀ x ∈ l, x.visual ≤ T) →
      List.Chain (fun a b : MapEntry => a.real < b.real) prev l →
      List.Chain (fun a b : MapEntry => a.visual ≤ b.visual) prev l →
      prev.real < t →
      getPercentAux T prev l t ≤ 100 := by
  intro l
  induction l with
  | nil =>
      intro prev t _ _ _ _
      rw [getPercentAux]
  | cons e rest ih =>
      intro prev t hub hcR hcV hpr
      rw [List.chain_cons] at hcR hcV
      rw [getPercentAux]
      split
      · rename_i hte
        have heT : e.visual ≤ T := hub e (List.mem_cons_self _ _)
        exact le_trans (interpVal_le hT hpr hte hcV.1) (div_mul_100_le_100 hT heT)
      · rename_i hnot
        exact ih e t (fun x hx => hub x (List.mem_cons_of_mem _ hx)) hcR.2 hcV.2
          (lt_of_not_le hnot)

lemma getPercentAux_mono {T : ℚ} (hT : 0 < T) :
    ∀ (l : List MapEntry) (prev : MapEntry) (t1 t2 : ℚ),
      prev.visual ≤ T →
      (∀ x ∈ l, x.visual ≤ T) →
      List.Chain (fun a b : MapEntry => a.real < b.real) prev l →
      List.Chain (fun a b : MapEntry => a.visual ≤ b.visual) prev l →
      prev.real < t1 → t1 ≤ t2 →
      getPercentAux T prev l t1 ≤ getPercentAux T prev l t2 := by
  intro l
  induction l with
  | nil => intro prev t1 t2 _ _ _ _ _ _; exact le_refl _
  | cons e rest ih =>
      intro prev t1 t2 hpT hub hcR hcV hpr1 h12
      rw [List.chain_cons] at hcR hcV
      have heT : e.visual ≤ T := hub e (List.mem_cons_self _ _)
      have hub' : ∀ x ∈ rest, x.visual ≤ T := fun x hx => hub x (List.mem_cons_of_mem _ hx)
      by_cases h2 : t2 ≤ e.real
      · have h1 : t1 ≤ e.real := le_trans h12 h2
        rw [getPercentAux, getPercentAux, if_pos h1, if_pos h2]
        exact interpVal_mono hT hcR.1 hcV.1 h12
      · by_cases h1 : t1 ≤ e.real
        · rw [getPercentAux, getPercentAux, if_pos h1, if_neg h2]
          have hstep : interpVal T prev e t1 ≤ e.visual / T * 100 :=
            interpVal_le hT hpr1 h1 hcV.1
          have hlb := getPercentAux_lb hT rest e t2 heT hub' hcR.2 hcV.2 (lt_of_not_le h2)
          exact le_trans hstep hlb
        · rw [getPercentAux, getPercentAux, if_neg h1, if_neg h2]
          exact ih e t1 t2 heT hub' hcR.2 hcV.2 (lt_of_not_le h1) h12

/-- Monotonicity of `getPercent` over the flattened property list. -/
lemma getPercent_mono {props : List AnimatedProperty} (hv : ValidProps props)
    {t1 t2 : ℚ} (h12 : t1 ≤ t2) : getPercent props t1 ≤ getPercent props t2 := by
  have hT : 0 < totalVisualDuration props := totalVisualDuration_pos hv
  have hub := visualTail_visual_ub hv
  have hcR := visualTail_realChain hv
  have hcV := visualTail_visChainLe hv
  rw [getPercent_eq, getPercent_eq]
  by_cases h1 : t1 ≤ 0
  · rw [if_pos h1]
    by_cases h2 : t2 ≤ 0
    · rw [if_pos h2]
    · rw [if_neg h2]
      have hlb := getPercentAux_lb hT (visualTail props) ⟨0, 0⟩ t2 (le_of_lt hT) hub
        hcR hcV (lt_of_not_le h2)
      simpa using hlb
  · have h2 : ¬ t2 ≤ 0 := fun h => h1 (le_trans h12 h)
    rw [if_neg h1, if_neg h2]
    exact getPercentAux_mono hT (visualTail props) ⟨0, 0⟩ t1 t2 (le_of_lt hT) hub
      hcR hcV (lt_of_not_le h1) h12

/-- At the last table entry's `real` value the scan lands exactly on that
entry and interpolation degenerates to its `visual` value. -/
lemma getPercentAux_last {T : ℚ} :
    ∀ (l : List MapEntry) (prev : MapEntry),
      List.Chain (fun a b : MapEntry => a.real < b.real) prev l → l ≠ [] →
      getPercentAux T prev l ((l.getLastD prev).real) =
        (l.getLastD prev).visual / T * 100 := by
  intro l
  induction l with
  | nil => intro prev _ h; exact absurd rfl h
  | cons e rest ih =>
      intro prev hchain _
      rw [List.chain_cons] at hchain
      obtain ⟨hpe, hchain'⟩ := hchain
      rw [List.getLastD_cons]
      cases rest with
      | nil =>
          show getPercentAux T prev [e] e.real = e.visual / T * 100
          rw [getPercentAux, if_pos (le_refl e.real)]
          simp only [interpVal]
          rw [div_self (ne_of_gt (sub_pos.mpr hpe))]
          ring
      | cons e' rest' =>
          have hlt : e.real < (((e' :: rest').getLastD e)).real :=
            chain_lt_getLastD (fun x => x.real) (e' :: rest') e hchain' (by simp)
          rw [getPercentAux, if_neg (not_le.mpr hlt)]
          exact ih e hchain' (by simp)

lemma interpValChecked_eq {T : ℚ} {prev e : MapEntry} {t : ℚ} (hT : T ≠ 0)
    (hpr : prev.real < t) (hte : t ≤ e.real) :
    interpValChecked T prev e t = some (interpVal T prev e t) := by
  have hne : e.real - prev.real ≠ 0 :=
    ne_of_gt (sub_pos.mpr (lt_of_lt_of_le hpr hte))
  unfold interpValChecked divCheckedQ interpVal
  simp only [if_neg hne, if_neg hT]

lemma getPercentAuxChecked_eq {T : ℚ} (hT : T ≠ 0) :
    ∀ (l : List MapEntry) (prev : MapEntry) (t : ℚ), prev.real < t →
      getPercentAuxChecked T prev l t = some (getPercentAux T prev l t) := by
  intro l
  induction l with
  | nil => intro prev t _; rfl
  | cons e rest ih =>
      intro prev t hpr
      rw [getPercentAuxChecked, getPercentAux]
      split
      · exact interpValChecked_eq hT hpr (by assumption)
      · exact ih e t (lt_of_not_le (by assumption))

lemma getPercentChecked_eq' (props : List AnimatedProperty) (t : ℚ) :
    getPercentChecked props t =
      if t ≤ 0 then some 0
      else getPercentAuxChecked (totalVisualDuration props) ⟨0, 0⟩ (visualTail props) t := by
  unfold getPercentChecked
  rw [visualMap_eq]

/-- The checked pipeline never hits a zero denominator: it agrees with the
unchecked `getPercent` on every input, valid or not. -/
lemma getPercentChecked_eq (props : List AnimatedProperty) (t : ℚ) :
    getPercentChecked props t = some (getPercent props t) := by
  rw [getPercentChecked_eq', getPercent_eq]
  by_cases h : t ≤ 0
  · rw [if_pos h, if_pos h]
  · rw [if_neg h, if_neg h]
    exact getPercentAuxChecked_eq (totalVisualDuration_ne_zero props)
      (visualTail props) ⟨0, 0⟩ t (lt_of_not_le h)

lemma htmlIsActive_eq (props : List AnimatedProperty) (mid : ℚ) :
    htmlIsActive props mid = isActive props mid := rfl

lemma htmlMaxEmptyGapVisual_eq : htmlMaxEmptyGapVisual = MAX_EMPTY_GAP_VISUAL := rfl

lemma htmlSortedPoints_eq (props : List AnimatedProperty) :
    htmlSortedPoints props = sortedPoints props := rfl

lemma htmlBuildSegments_eq (props : List AnimatedProperty) :
    ∀ (rest : List ℚ) (cur t : ℚ),
      htmlBuildSegments props cur t rest = buildSegments props cur t rest := by
  intro rest
  induction rest with
  | nil => intro cur t; rfl
  | cons tEnd rest' ih =>
      intro cur t
      rw [htmlBuildSegments, buildSegments]
      simp only [htmlIsActive_eq, htmlMaxEmptyGapVisual_eq]
      rw [ih]

lemma htmlVisualMap_eq (props : List AnimatedProperty) :
    htmlVisualMap props = visualMap props := by
  unfold htmlVisualMap visualMap
  rw [htmlSortedPoints_eq]
  cases sortedPoints props with
  | nil => rfl
  | cons t rest =>
      show (⟨0, 0⟩ : MapEntry) :: htmlBuildSegments props 0 t rest =
        ⟨0, 0⟩ :: buildSegments props 0 t rest
      rw [htmlBuildSegments_eq]

lemma htmlTotalVisualDuration_eq (props : List AnimatedProperty) :
    htmlTotalVisualDuration props = totalVisualDuration props := by
  unfold htmlTotalVisualDuration totalVisualDuration htmlTotalVisualRaw totalVisualRaw
  rw [htmlVisualMap_eq]

lemma htmlGetPercentAux_eq (T : ℚ) :
    ∀ (l : List MapEntry) (prev : MapEntry) (t : ℚ),
      htmlGetPercentAux T prev l t = getPercentAux T prev l t := by
  intro l
  induction l with
  | nil => intro prev t; rfl
  | cons e rest ih =>
      intro prev t
      rw [htmlGetPercentAux, getPercentAux, ih]

lemma htmlGetPercent_eq (props : List AnimatedProperty) (t : ℚ) :
    htmlGetPercent props t = getPercent props t := by
  unfold htmlGetPercent getPercent
  rw [htmlVisualMap_eq, htmlTotalVisualDuration_eq]
  cases visualMap props with
  | nil => rfl
  | cons e rest =>
      show (if t ≤ e.real then 0 else htmlGetPercentAux (totalVisualDuration props) e rest t) =
        if t ≤ e.real then 0 else getPercentAux (totalVisualDuration props) e rest t
      rw [htmlGetPercentAux_eq]

/-! ### The claims -/

/-- C1: for every list of tracks whose intervals have non-negative starts and
end ≥ start, the percent function returned by the scale builder is
non-decreasing: `t1 ≤ t2` implies `percent t1 ≤ percent t2`, for all rational
times, before `0`, inside the table and beyond the maximum time point. -/
theorem claim1_percent_nondecreasing (tracks : List AnimationTrack)
    (hv : ValidProps (allProps tracks)) (t1 t2 : ℚ) (h12 : t1 ≤ t2) :
    (createVisualTimeScale tracks).getPercent t1 ≤
      (createVisualTimeScale tracks).getPercent t2 :=
  getPercent_mono hv h12

/-- Witness for C1 at the concrete two-interval input and times `0 ≤ 400`. -/
theorem claim1_witness :
    ValidProps (allProps exTracks) ∧ (0 : ℚ) ≤ 400 ∧
      (createVisualTimeScale exTracks).getPercent 0 ≤
        (createVisualTimeScale exTracks).getPercent 400 :=
  ⟨by norm_num [ValidProps, allProps, exTracks, intervalStart, intervalEnd],
   by norm_num,
   claim1_percent_nondecreasing exTracks
     (by norm_num [ValidProps, allProps, exTracks, intervalStart, intervalEnd])
     0 400 (by norm_num)⟩

/-- C2 as stated is false: on the empty interval list, `percent` maps times
beyond the (empty) table to `100`, not to `0`: `percent 1 = 100 ≠ 0`. -/
theorem claim2_counterexample :
    allProps [] = [] ∧ (createVisualTimeScale []).getPercent 1 = 100 ∧
      (100 : ℚ) ≠ 0 := by
  refine ⟨rfl, ?_, by norm_num⟩
  norm_num [createVisualTimeScale, allProps, getPercent, getPercentAux, visualMap,
    sortedPoints, rawPoints, insertPoint, totalVisualDuration, totalVisualRaw]

/-- C2 (amended): when the flattened interval list is empty the builder
returns `totalDuration = 0`, and `percent` maps every time `t ≤ 0` to `0` and
every time `t > 0` to `100`. -/
theorem claim2_empty_scale (tracks : List AnimationTrack) (h : allProps tracks = []) :
    (createVisualTimeScale tracks).totalDuration = 0 ∧
      ∀ t : ℚ, (createVisualTimeScale tracks).getPercent t =
        if t ≤ 0 then 0 else 100 := by
  constructor
  · show maxRealDuration (allProps tracks) = 0
    rw [h]
    norm_num [maxRealDuration, sortedPoints, rawPoints, insertPoint]
  · intro t
    show getPercent (allProps tracks) t = _
    rw [h, getPercent_eq]
    have htail : visualTail ([] : List AnimatedProperty) = [] := by
      norm_num [visualTail, sortedPoints, rawPoints, insertPoint, buildSegments]
    rw [htail]
    by_cases ht : t ≤ 0
    · rw [if_pos ht, if_pos ht]
    · rw [if_neg ht, if_neg ht, getPercentAux]

/-- Witness for the amended C2 at the empty track list. -/
theorem claim2_witness :
    allProps [] = [] ∧
      ((createVisualTimeScale []).totalDuration = 0 ∧
        ∀ t : ℚ, (createVisualTimeScale []).getPercent t =
          if t ≤ 0 then 0 else 100) :=
  ⟨rfl, claim2_empty_scale [] rfl⟩

/-- C3 as stated is false: the non-empty valid interval set `{[0,0]}` has
`totalDuration = 0` and `percent totalDuration = 0`, not `100`. -/
theorem claim3_counterexample :
    ValidProps (allProps pointTracks) ∧ allProps pointTracks ≠ [] ∧
      (createVisualTimeScale pointTracks).getPercent
        ((createVisualTimeScale pointTracks).totalDuration) = 0 ∧
      (0 : ℚ) ≠ 100 := by
  refine ⟨by norm_num [ValidProps, allProps, pointTracks, intervalStart, intervalEnd],
    by norm_num [allProps, pointTracks], ?_, by norm_num⟩
  norm_num [createVisualTimeScale, allProps, pointTracks, maxRealDuration, getPercent,
    visualMap, sortedPoints, rawPoints, insertPoint]

/-- C3 (amended): for every interval set with non-negative starts and
end ≥ start whose returned `totalDuration` is positive (which forces it
non-empty), `percent totalDuration = 100`. -/
theorem claim3_percent_at_totalDuration (tracks : List AnimationTrack)
    (hv : ValidProps (allProps tracks))
    (hpos : 0 < (createVisualTimeScale tracks).totalDuration) :
    (createVisualTimeScale tracks).getPercent
      ((createVisualTimeScale tracks).totalDuration) = 100 := by
  show getPercent (allProps tracks) (maxRealDuration (allProps tracks)) = 100
  have hpos' : 0 < maxRealDuration (allProps tracks) := hpos
  obtain ⟨rest, hcons, hchain⟩ := sortedPoints_eq_zero_cons hv
  have hmax : maxRealDuration (allProps tracks) = rest.getLastD 0 := by
    unfold maxRealDuration
    rw [hcons, List.getLastD_cons]
  cases rest with
  | nil =>
      rw [hmax] at hpos'
      norm_num [List.getLastD] at hpos'
  | cons r rest' =>
      have htail : visualTail (allProps tracks) =
          buildSegments (allProps tracks) 0 0 (r :: rest') := by
        unfold visualTail
        rw [hcons]
      have htail_ne : visualTail (allProps tracks) ≠ [] := by
        rw [htail, buildSegments]
        exact List.cons_ne_nil _ _
      have hlast_real : ((visualTail (allProps tracks)).getLastD ⟨0, 0⟩).real =
          maxRealDuration (allProps tracks) := by
        rw [htail, buildSegments_getLastD_real, hmax]
      have hrawpos : 0 < totalVisualRaw (allProps tracks) := totalVisualRaw_pos hv htail_ne
      have hT : totalVisualDuration (allProps tracks) = totalVisualRaw (allProps tracks) := by
        unfold totalVisualDuration
        rw [if_neg (ne_of_gt hrawpos)]
      rw [getPercent_eq, if_neg (not_le.mpr hpos')]
      have hlastval := getPercentAux_last (T := totalVisualDuration (allProps tracks))
        (visualTail (allProps tracks)) ⟨0, 0⟩ (visualTail_realChain hv) htail_ne
      rw [hlast_real] at hlastval
      rw [hlastval, ← totalVisualRaw_eq, hT, div_self (ne_of_gt hrawpos)]
      norm_num

/-- Witness for the amended C3 at the concrete two-interval input. -/
theorem claim3_witness :
    ValidProps (allProps exTracks) ∧ 0 < (createVisualTimeScale exTracks).totalDuration ∧
      (createVisualTimeScale exTracks).getPercent
        ((createVisualTimeScale exTracks).totalDuration) = 100 :=
  ⟨by norm_num [ValidProps, allProps, exTracks, intervalStart, intervalEnd],
   by norm_num [createVisualTimeScale, allProps, exTracks, maxRealDuration,
     sortedPoints, rawPoints, insertPoint],
   claim3_percent_at_totalDuration exTracks
     (by norm_num [ValidProps, allProps, exTracks, intervalStart, intervalEnd])
     (by norm_num [createVisualTimeScale, allProps, exTracks, maxRealDuration,
       sortedPoints, rawPoints, insertPoint])⟩

/-- C4: on the disjoint intervals `[0,100]` and `[5000,5100]`, the midpoint
test classifies the gap idle, and the mapping table allocates the gap exactly
`MAX_EMPTY_GAP_VISUAL = 60` visual units (entry `5000` has visual `160`, not
`4900 + 100`), while both active segments keep their real durations. -/
theorem claim4_idle_gap_compression :
    MAX_EMPTY_GAP_VISUAL = 60 ∧
      isActive (allProps gapTracks) ((100 + 5000) / 2) = false ∧
      visualMap (allProps gapTracks) =
        [⟨0, 0⟩, ⟨100, 100⟩, ⟨5000, 160⟩, ⟨5100, 260⟩] := by
  refine ⟨rfl, ?_, ?_⟩
  · norm_num [isActive, allProps, gapTracks]
  · norm_num [visualMap, allProps, gapTracks, sortedPoints, rawPoints, insertPoint,
      buildSegments, isActive, MAX_EMPTY_GAP_VISUAL, min_def]

/-- C5: the scenario with one track holding `[0,400]` and `[0,600]`: time
points `[0,400,600]`, both segments active at their midpoints, total visual
duration `600`, `percent 400 = 400/600*100` and `percent 600 = 100`. -/
theorem claim5_scenario :
    sortedPoints (allProps exTracks) = [0, 400, 600] ∧
      isActive (allProps exTracks) ((0 + 400) / 2) = true ∧
      isActive (allProps exTracks) ((400 + 600) / 2) = true ∧
      totalVisualDuration (allProps exTracks) = 600 ∧
      (createVisualTimeScale exTracks).getPercent 400 = 400 / 600 * 100 ∧
      (createVisualTimeScale exTracks).getPercent 600 = 100 := by
  refine ⟨?_, ?_, ?_, ?_, ?_, ?_⟩
  · norm_num [sortedPoints, allProps, exTracks, rawPoints, insertPoint]
  · norm_num [isActive, allProps, exTracks]
  · norm_num [isActive, allProps, exTracks]
  · norm_num [totalVisualDuration, totalVisualRaw, visualMap, allProps, exTracks,
      sortedPoints, rawPoints, insertPoint, buildSegments, isActive, MAX_EMPTY_GAP_VISUAL]
  · norm_num [createVisualTimeScale, allProps, exTracks, getPercent, getPercentAux,
      interpVal, visualMap, sortedPoints, rawPoints, insertPoint, buildSegments,
      isActive, MAX_EMPTY_GAP_VISUAL, totalVisualDuration, totalVisualRaw]
  · norm_num [createVisualTimeScale, allProps, exTracks, getPercent, getPercentAux,
      interpVal, visualMap, sortedPoints, rawPoints, insertPoint, buildSegments,
      isActive, MAX_EMPTY_GAP_VISUAL, totalVisualDuration, totalVisualRaw]

/-- C6: the division-checked rendering of the pipeline agrees with the real
one on every input (so no division ever has a zero denominator), and on the
single zero-length interval `[500,500]` the value `percent 500` is the
defined finite value `100`. -/
theorem claim6_total_no_div_by_zero :
    (∀ (props : List AnimatedProperty) (t : ℚ),
        getPercentChecked props t = some (getPercent props t)) ∧
      (createVisualTimeScale zeroLenTracks).getPercent 500 = 100 := by
  refine ⟨getPercentChecked_eq, ?_⟩
  norm_num [createVisualTimeScale, allProps, zeroLenTracks, getPercent, getPercentAux,
    interpVal, visualMap, sortedPoints, rawPoints, insertPoint, buildSegments,
    isActive, MAX_EMPTY_GAP_VISUAL, totalVisualDuration, totalVisualRaw, min_def]

/-- C7: for valid inputs the mapping table starts at `(0,0)`, is
non-decreasing entry-to-entry in both components, and every visual value lies
in `[0, totalVisualDuration]` (with the `100` default when the accumulation
is zero). -/
theorem claim7_mapping_invariants (tracks : List AnimationTrack)
    (hv : ValidProps (allProps tracks)) :
    (visualMap (allProps tracks)).head? = some ⟨0, 0⟩ ∧
      List.Chain' (fun a b : MapEntry => a.real ≤ b.real) (visualMap (allProps tracks)) ∧
      List.Chain' (fun a b : MapEntry => a.visual ≤ b.visual) (visualMap (allProps tracks)) ∧
      ∀ e ∈ visualMap (allProps tracks),
        0 ≤ e.visual ∧ e.visual ≤ totalVisualDuration (allProps tracks) := by
  refine ⟨?_, ?_, ?_, ?_⟩
  · rw [visualMap_eq]
    rfl
  · rw [visualMap_eq]
    exact (visualTail_realChain hv).imp (fun _ _ h => le_of_lt h)
  · rw [visualMap_eq]
    exact visualTail_visChainLe hv
  · intro e he
    rw [visualMap_eq] at he
    rcases List.mem_cons.mp he with rfl | he'
    · exact ⟨le_refl _, le_of_lt (totalVisualDuration_pos hv)⟩
    · exact ⟨visualTail_visual_nonneg hv e he', visualTail_visual_ub hv e he'⟩

/-- Witness for C7 at the concrete two-interval input. -/
theorem claim7_witness :
    ValidProps (allProps exTracks) ∧
      ((visualMap (allProps exTracks)).head? = some ⟨0, 0⟩ ∧
        List.Chain' (fun a b : MapEntry => a.real ≤ b.real) (visualMap (allProps exTracks)) ∧
        List.Chain' (fun a b : MapEntry => a.visual ≤ b.visual)
          (visualMap (allProps exTracks)) ∧
        ∀ e ∈ visualMap (allProps exTracks),
          0 ≤ e.visual ∧ e.visual ≤ totalVisualDuration (allProps exTracks)) :=
  ⟨by norm_num [ValidProps, allProps, exTracks, intervalStart, intervalEnd],
   claim7_mapping_invariants exTracks
     (by norm_num [ValidProps, allProps, exTracks, intervalStart, intervalEnd])⟩

/-- C8: for every list of tracks the first mapping entry is the seeded
`(0,0)`, so `percent 0 = 0` unconditionally. -/
theorem claim8_percent_at_zero (tracks : List AnimationTrack) :
    (createVisualTimeScale tracks).getPercent 0 = 0 := by
  show getPercent (allProps tracks) 0 = 0
  rw [getPercent_eq, if_pos (le_refl (0 : ℚ))]

/-- C9: the builder is deterministic — identical track lists give the same
`totalDuration` and pointwise the same percent function. -/
theorem claim9_deterministic (ts1 ts2 : List AnimationTrack) (h : ts1 = ts2) :
    (createVisualTimeScale ts1).totalDuration = (createVisualTimeScale ts2).totalDuration ∧
      ∀ t : ℚ, (createVisualTimeScale ts1).getPercent t =
        (createVisualTimeScale ts2).getPercent t := by
  subst h
  exact ⟨rfl, fun _ => rfl⟩

/-- Witness for C9 at the concrete two-interval input. -/
theorem claim9_witness :
    exTracks = exTracks ∧
      ((createVisualTimeScale exTracks).totalDuration =
          (createVisualTimeScale exTracks).totalDuration ∧
        ∀ t : ℚ, (createVisualTimeScale exTracks).getPercent t =
          (createVisualTimeScale exTracks).getPercent t) :=
  ⟨rfl, claim9_deterministic exTracks exTracks rfl⟩

/-- C10: for every group, the timeline-scale computation inlined in the HTML
export computes the same `totalDuration` and the same percent value at every
time as `createVisualTimeScale` on that group's tracks. -/
theorem claim10_html_export_matches (g : AnimationGroup) :
    htmlMaxRealDuration (htmlAllProps g.tracks) =
        (createVisualTimeScale g.tracks).totalDuration ∧
      ∀ t : ℚ, htmlGetPercent (htmlAllProps g.tracks) t =
        (createVisualTimeScale g.tracks).getPercent t := by
  constructor
  · rfl
  · intro t
    show htmlGetPercent (allProps g.tracks) t = getPercent (allProps g.tracks) t
    exact htmlGetPercent_eq (allProps g.tracks) t
